import Mathlib

/-!
Verification of the CI pipeline glue script in `src/pipe/pipe.js`.

The script's functions are shallowly embedded as Lean functions.  JavaScript
strings are modelled as `List Char`; external effects (filesystem reads, the
YAML parser, `git` invocations and HTTP exchanges) are modelled as explicit
inputs, with `Except`/`Option` carrying the failure cases that the script
observes through exceptions or rejected promises.  Numbers appearing in JSON
values are modelled as integers (no fractional values are produced or
consumed by the code paths verified here).
-/

namespace Pipe

/-- JavaScript strings, modelled as lists of unicode scalar values. -/
abbrev Str := List Char

/-! ### Generic JavaScript string primitives used by `pipe.js` -/

/-- The character class `\s` of JavaScript regular expressions:
ASCII whitespace, NBSP, the unicode space separators, the line and
paragraph separators and the BOM. -/
def jsWhitespace (c : Char) : Bool :=
  c.toNat = 0x20 || c.toNat = 0x9 || c.toNat = 0xa || c.toNat = 0xd ||
  c.toNat = 0xb || c.toNat = 0xc || c.toNat = 0xa0 || c.toNat = 0x1680 ||
  (0x2000 ≤ c.toNat && c.toNat ≤ 0x200a) || c.toNat = 0x2028 ||
  c.toNat = 0x2029 || c.toNat = 0x202f || c.toNat = 0x205f ||
  c.toNat = 0x3000 || c.toNat = 0xfeff

/-- JavaScript `String.prototype.split` with a one-character separator:
`"".split(sep)` is `[""]`, empty segments are preserved. -/
def jsSplit (sep : Char) : Str → List Str
  | [] => [[]]
  | c :: rest =>
    match jsSplit sep rest with
    | [] => [[c]]
    | h :: t => if c = sep then [] :: h :: t else (c :: h) :: t

/-- JavaScript `String.prototype.replace` with a string pattern: the first
occurrence of `needle` (if any) is removed. -/
def replaceFirst (needle : Str) : Str → Str
  | [] => []
  | c :: rest =>
    if needle.isPrefixOf (c :: rest) then (c :: rest).drop needle.length
    else c :: replaceFirst needle rest

/-- JavaScript `String.prototype.includes`: `needle` occurs contiguously in
the string. -/
def containsSubstr (needle : Str) : Str → Bool
  | [] => needle.isEmpty
  | c :: rest => needle.isPrefixOf (c :: rest) || containsSubstr needle rest

/-! ### Token Sanitizer (`sanitizeToken`, pipe.js lines 42–52) -/

/-- The effect of `token.replace(/^[Bb]earer\s+/, "")`: if the string starts
with `B` or `b`, then the literal `earer`, then at least one whitespace
character, the prefix and the (greedy, maximal) whitespace run after it are
removed; otherwise the string is unchanged. -/
def stripBearer (t : Str) : Str :=
  match t with
  | b :: 'e' :: 'a' :: 'r' :: 'e' :: 'r' :: rest =>
    if (b = 'B' || b = 'b') &&
        (match rest with | c :: _ => jsWhitespace c | [] => false) then
      rest.dropWhile jsWhitespace
    else t
  | _ => t

/-- `sanitizeToken(token)` from pipe.js: falsy input (absent or empty) maps
to the empty string; otherwise the `[Bb]earer\s+` prefix is stripped and then
`replace(/\s+/g, "")` removes every whitespace character. -/
def sanitizeToken : Option Str → Str
  | none => []
  | some t =>
    if t = [] then []
    else (stripBearer t).filter (fun c => !jsWhitespace c)

/-! ### Change Detector (`getChangedFilesInFolder`, `getChangedFolders`,
pipe.js lines 57–129).  The raw stdout of the `git log` invocation is an
explicit input; a throwing `execSync` is modelled by the `Except.error`
case, which both functions turn into the empty collection. -/

/-- The effect of `folder.replace(/\/$/, "")`: one trailing slash removed. -/
def removeTrailingSlash (folder : Str) : Str :=
  if folder.getLast? = some '/' then folder.dropLast else folder

/-- Insertion into a JavaScript `Set`, which preserves insertion order. -/
def jsSetAdd (acc : List Str) (x : Str) : List Str :=
  if x ∈ acc then acc else acc ++ [x]

/-- `getChangedFolders()` from pipe.js: split the `git log --name-only`
output into lines, keep lines starting with `actions/`, and collect
`actions/` followed by the second `/`-separated segment into a `Set`. -/
def getChangedFolders (git : Except Unit Str) : List Str :=
  match git with
  | .error _ => []
  | .ok raw =>
    (jsSplit '\n' raw).foldl (fun folders file =>
      if "actions/".toList.isPrefixOf file then
        let parts := jsSplit '/' file
        if 2 ≤ parts.length then
          jsSetAdd folders ("actions/".toList ++ (parts[1]?.getD []))
        else folders
      else folders) []

/-- `getChangedFilesInFolder(folder)` from pipe.js: keep the lines of the
`git log` output that are non-blank and start with the normalized folder
path (trailing slash ensured), and strip that path from each. -/
def getChangedFilesInFolder (folder : Str) (git : Except Unit Str) : List Str :=
  match git with
  | .error _ => []
  | .ok raw =>
    let normalizedFolder := removeTrailingSlash folder ++ ['/']
    ((jsSplit '\n' raw).filter
        (fun f => f.any (fun c => !jsWhitespace c) && normalizedFolder.isPrefixOf f)).map
      (replaceFirst normalizedFolder)

/-- The distinct elements of a list, in order of first appearance. -/
def dedupFirst {α : Type} [DecidableEq α] : List α → List α
  | [] => []
  | x :: rest => x :: (dedupFirst rest).filter (fun y => decide (y ≠ x))

/-- Modelled from the spec's words for `list_changed_action_folders()`:
"filters changed file paths to those rooted under a fixed top-level
directory, extracts the second path segment (immediate child folder name)
from each, returns the distinct set of `top-level/child` paths, order of
first appearance within the underlying listing". -/
def spec_changedActionFolders (listing : List Str) : List Str :=
  dedupFirst (listing.filterMap (fun p =>
    if "actions/".toList.isPrefixOf p then
      some ("actions/".toList ++ ((jsSplit '/' p)[1]?.getD []))
    else none))

/-! ### JSON values and the Remote Client -/

/-- JSON-like JavaScript values appearing in configs, payloads and
responses. -/
inductive JVal where
  | null
  | bool (b : Bool)
  | num (n : Int)
  | str (s : Str)
  | arr (elems : List JVal)
  | obj (fields : List (Str × JVal))

/-- JavaScript truthiness of the modelled values: `null`, `false`, `0` and
the empty string are falsy; arrays and objects are always truthy. -/
def JVal.truthy : JVal → Bool
  | .null => false
  | .bool b => b
  | .num n => decide (n ≠ 0)
  | .str s => decide (s ≠ [])
  | .arr _ => true
  | .obj _ => true

/-- Property access `v?.k`: a field of an object, `none` standing for
JavaScript `undefined`. -/
def JVal.getField : JVal → Str → Option JVal
  | .obj fields, k => fields.lookup k
  | _, _ => none

/-- Index access `v?.[i]`. -/
def JVal.getIndex : JVal → Nat → Option JVal
  | .arr elems, i => elems[i]?
  | _, _ => none

/-- An HTTP exchange as `makeRequest` resolves it: the status code and the
response body (parsed JSON, or the raw text under `JVal.str` when the body
is not JSON).  A rejected promise (network error) is `Except.error` with the
error message. -/
structure HttpResp where
  status : Int
  data : JVal

/-- Models the expression `a || b || null` over the two id candidates: the
first truthy value, or `none` (for `null`). -/
def jsOrNull (a b : Option JVal) : Option JVal :=
  match a with
  | some v => if v.truthy then some v else
      match b with
      | some w => if w.truthy then some w else none
      | none => none
  | none =>
      match b with
      | some w => if w.truthy then some w else none
      | none => none

/-- `checkTaskExists(name, token)` from pipe.js, as a function of the GET
exchange it performs: the id is `response.data?.results?.[0]?.id ||
response.data?.id || null`, and any rejection is logged and mapped to
`null`.  The HTTP status code is never consulted. -/
def checkTaskExists (resp : Except Str HttpResp) : Option JVal :=
  match resp with
  | .error _ => none
  | .ok r =>
      jsOrNull
        (((r.data.getField "results".toList).bind (fun v => v.getIndex 0)).bind
          (fun v => v.getField "id".toList))
        (r.data.getField "id".toList)

/-! ### Percent-encoding (`encodeURIComponent`), used by both payload
builders on the text of `main.py` -/

/-- The characters `encodeURIComponent` leaves unescaped: ASCII letters,
digits and `- _ . ! ~ * ( )` together with the single quote (0x27). -/
def isUriUnescaped (c : Char) : Bool :=
  (0x41 ≤ c.toNat && c.toNat ≤ 0x5a) || (0x61 ≤ c.toNat && c.toNat ≤ 0x7a) ||
  (0x30 ≤ c.toNat && c.toNat ≤ 0x39) ||
  c.toNat = 0x2d || c.toNat = 0x5f || c.toNat = 0x2e || c.toNat = 0x21 ||
  c.toNat = 0x7e || c.toNat = 0x2a || c.toNat = 0x27 ||
  c.toNat = 0x28 || c.toNat = 0x29

/-- The UTF-8 bytes of a unicode scalar value. -/
def utf8Bytes (c : Char) : List Nat :=
  let v := c.toNat
  if v < 0x80 then [v]
  else if v < 0x800 then [0xc0 + v / 64, 0x80 + v % 64]
  else if v < 0x10000 then
    [0xe0 + v / 4096, 0x80 + v / 64 % 64, 0x80 + v % 64]
  else
    [0xf0 + v / 262144, 0x80 + v / 4096 % 64, 0x80 + v / 64 % 64, 0x80 + v % 64]

/-- Upper-case hexadecimal digits, as `encodeURIComponent` emits them. -/
def hexDigitChar (n : Nat) : Char :=
  if n < 10 then Char.ofNat (0x30 + n) else Char.ofNat (0x37 + n)

/-- A percent-escape `%XY` for one byte. -/
def percentByte (b : Nat) : Str :=
  ['%', hexDigitChar (b / 16), hexDigitChar (b % 16)]

/-- One character as `encodeURIComponent` renders it. -/
def encodeChar (c : Char) : Str :=
  if isUriUnescaped c then [c] else (utf8Bytes c).flatMap percentByte

/-- `encodeURIComponent`, applied by pipe.js to the script text. -/
def encodeURIComponent (s : Str) : Str := s.flatMap encodeChar

/-! ### Config Validator and Payload Builder (pipe.js lines 134–245) -/

/-- A parsed `config.yaml` mapping. -/
abbrev ActionConfig := List (Str × JVal)

/-- The JavaScript `in` test used by `validateConfig`. -/
def hasKey (config : ActionConfig) (k : Str) : Bool :=
  (config.map Prod.fst).contains k

/-- The five keys `validateConfig` requires, in the order it checks them. -/
def requiredKeys : List Str :=
  ["description".toList, "memory".toList, "interpreter".toList,
   "time_limit".toList, "concurrency".toList]

/-- JavaScript `Array.prototype.join(sep)`. -/
def joinSep (sep : Str) : List Str → Str
  | [] => []
  | [x] => x
  | x :: y :: rest => x ++ sep ++ joinSep sep (y :: rest)

/-- The single-quote character used around key names in validation
messages. -/
def quoteChar : Char := Char.ofNat 39

/-- `validateConfig(config, folder)` from pipe.js: collect one message per
missing required key and, if any, combine them into a single error string
`Invalid config.yaml in FOLDER:` followed by one `  - ` bullet per key. -/
def validateConfig (config : ActionConfig) (folder : Str) : Option Str :=
  let errors := (requiredKeys.filter (fun k => !hasKey config k)).map
    (fun k => quoteChar :: (k ++ (quoteChar :: " is required".toList)))
  if errors.isEmpty then none
  else some ("Invalid config.yaml in ".toList ++ folder
    ++ ":\n  - ".toList ++ joinSep "\n  - ".toList errors)

/-- `path.basename` for the slash-separated paths pipe.js passes it (no
trailing slash: `syncTask` strips it first). -/
def basename (p : Str) : Str := (jsSplit '/' p).getLastD []

/-- The filesystem and YAML-parser observations one folder's payload
construction makes: whether `config.yaml` exists, the outcome of reading
and parsing it (`Except.error` carries the message of the exception, as
`yaml.load` reports it), whether `main.py` exists, and the outcome of
reading `main.py` as UTF-8 text. -/
structure FolderFs where
  hasConfig : Bool
  yamlResult : Except Str ActionConfig
  hasMainPy : Bool
  readMainPy : Except Str Str

/-- The full payload `generatePayload` assembles.  In pipe.js the statements
`taskConfig.interpreter = ...` and `taskConfig.requirements = ...` mutate
the very object `config` refers to, re-assigning values it already holds (a
missing `requirements` key becomes an explicit `undefined`, which JSON
serialization omits again), so the serialized `config` member echoes the
parsed mapping verbatim. -/
structure FullPayload where
  name : Str
  description : JVal
  memory : JVal
  time_limit : JVal
  concurrency : JVal
  config : ActionConfig
  file : Str

/-- Property read `config.k`; the keys read by `generatePayload` are
guaranteed present by `validateConfig`. -/
def cfgGet (config : ActionConfig) (k : Str) : JVal :=
  (config.lookup k).getD JVal.null

/-- `generatePayload(folder)` from pipe.js. -/
def generatePayload (folder : Str) (fsys : FolderFs) : Except Str FullPayload :=
  if !fsys.hasConfig then .error "No config.yaml found".toList
  else
    match fsys.yamlResult with
    | .error m => .error ("Invalid YAML: ".toList ++ m)
    | .ok config =>
      match validateConfig config folder with
      | some e => .error e
      | none =>
        if !fsys.hasMainPy then .error "No main.py file found".toList
        else
          match fsys.readMainPy with
          | .error m => .error m
          | .ok content =>
            .ok { name := basename folder
                , description := cfgGet config "description".toList
                , memory := cfgGet config "memory".toList
                , time_limit := cfgGet config "time_limit".toList
                , concurrency := cfgGet config "concurrency".toList
                , config := config
                , file := encodeURIComponent content }

/-- The filesystem observations of the later `generateFileOnlyPayload` call:
a separate `existsSync`/`readFileSync` pair, so it may observe a different
state than the earlier full-payload construction did. -/
structure FileFs where
  hasMainPy : Bool
  readMainPy : Except Str Str

/-- `generateFileOnlyPayload(folder)` from pipe.js: the encoded script text,
the only member of the partial payload. -/
def generateFileOnlyPayload (fsys : FileFs) : Except Str Str :=
  if !fsys.hasMainPy then .error "No main.py file found".toList
  else
    match fsys.readMainPy with
    | .error m => .error m
    | .ok content => .ok (encodeURIComponent content)

/-! ### Sync Orchestrator (`syncTask`, pipe.js lines 320–433) -/

/-- The request body of the PATCH issued for an existing task. -/
inductive PatchBody where
  | full (p : FullPayload)
  | fileOnly (file : Str)

/-- What one `syncTask` invocation does, as observed by its caller and the
log: skip the folder, kill the process (`process.exit`), log an error and
return, POST the full payload, or PATCH a body (recording whether the
file-only payload failed and the fallback warning was logged). -/
inductive SyncOutcome where
  | skippedNoConfig
  | skippedNoMain
  | exitRun (code : Nat)
  | errorContinue (msg : Str)
  | created (payload : FullPayload)
  | updated (body : PatchBody) (fallbackWarned : Bool)

/-- The substring whose presence in a payload-building error makes
`syncTask` abort the whole run. -/
def invalidConfigMarker : Str := "Invalid config.yaml".toList

/-- The update decision of `syncTask`: a non-empty change list in which
every file equals `main.py` and no file equals `config.yaml`. -/
def onlyPyFilesChanged (changedFiles : List Str) : Bool :=
  decide (0 < changedFiles.length)
    && changedFiles.all (fun f => f == "main.py".toList)
    && !(changedFiles.any (fun f => f == "config.yaml".toList))

/-- `syncTask(folder, apiToken)` from pipe.js, as a function of the folder
path and the external observations it makes: the filesystem/YAML view used
by the existence checks and `generatePayload`, the GET exchange of
`checkTaskExists`, the `git log` output read by `getChangedFilesInFolder`,
and the filesystem view of the later `generateFileOnlyPayload` call. -/
def syncTask (folder : Str) (fsys : FolderFs) (lookup : Except Str HttpResp)
    (git : Except Unit Str) (patchFs : FileFs) : SyncOutcome :=
  let cleanFolder := removeTrailingSlash folder
  if !fsys.hasConfig then .skippedNoConfig
  else if !fsys.hasMainPy then .skippedNoMain
  else
    match generatePayload cleanFolder fsys with
    | .error e =>
        if containsSubstr invalidConfigMarker e then .exitRun 1
        else .errorContinue e
    | .ok fullPayload =>
      match checkTaskExists lookup with
      | none => .created fullPayload
      | some _ =>
        let changedFiles := getChangedFilesInFolder cleanFolder git
        if onlyPyFilesChanged changedFiles then
          match generateFileOnlyPayload patchFs with
          | .error _ => .updated (.full fullPayload) true
          | .ok fileBody => .updated (.fileOnly fileBody) false
        else .updated (.full fullPayload) false

/-- The record that `generatePayload` returns on success, named for reuse in
statements about `syncTask`. -/
def builtPayload (folder : Str) (config : ActionConfig) (content : Str) : FullPayload :=
  { name := basename folder
  , description := cfgGet config "description".toList
  , memory := cfgGet config "memory".toList
  , time_limit := cfgGet config "time_limit".toList
  , concurrency := cfgGet config "concurrency".toList
  , config := config
  , file := encodeURIComponent content }

/-- A parsed config carrying all five required keys, used in the concrete
scenarios below. -/
def sampleConfig : ActionConfig :=
  [("description".toList, .str "d".toList), ("memory".toList, .num 512),
   ("interpreter".toList, .str "3.11".toList), ("time_limit".toList, .num 300),
   ("concurrency".toList, .num 1)]

/-- The bullet text `validateConfig` writes for a missing key. -/
def missingKeyMsg (k : Str) : Str :=
  quoteChar :: (k ++ (quoteChar :: " is required".toList))

/-! ### Reversing the percent-encoding (`decodeURIComponent`, ECMA-262):
needed to state that encoding the script text is lossless. -/

/-- One item of a percent-encoded string as `decodeURIComponent` scans it:
a literal character, or a `%XY` escape denoting one byte. -/
inductive UriToken where
  | lit (c : Char)
  | byte (b : Nat)
deriving DecidableEq

/-- The value of an upper- or lower-case hexadecimal digit. -/
def hexVal (c : Char) : Option Nat :=
  if 0x30 ≤ c.toNat && c.toNat ≤ 0x39 then some (c.toNat - 0x30)
  else if 0x41 ≤ c.toNat && c.toNat ≤ 0x46 then some (c.toNat - 0x37)
  else if 0x61 ≤ c.toNat && c.toNat ≤ 0x66 then some (c.toNat - 0x57)
  else none

/-- First phase of `decodeURIComponent`: scan the string, turning each
`%XY` escape into a byte and keeping every other character literal; a `%`
not followed by two hexadecimal digits is a `URIError` (`none`). -/
def uriScan : Str → Option (List UriToken)
  | [] => some []
  | c :: rest =>
    if c = '%' then
      match rest with
      | h1 :: h2 :: rest2 =>
        match hexVal h1, hexVal h2 with
        | some a, some b => (uriScan rest2).map (UriToken.byte (16 * a + b) :: ·)
        | _, _ => none
      | _ => none
    else (uriScan rest).map (UriToken.lit c :: ·)

/-- Whether a byte is a UTF-8 continuation byte. -/
def isCont (b : Nat) : Bool := 0x80 ≤ b && b < 0xc0

/-- How many continuation bytes a UTF-8 lead byte announces, or `none` for
a byte that cannot lead a sequence. -/
def utf8Need (b : Nat) : Option Nat :=
  if b < 0x80 then some 0
  else if b < 0xc0 then none
  else if b < 0xe0 then some 1
  else if b < 0xf0 then some 2
  else if b < 0xf8 then some 3
  else none

/-- The payload bits of a UTF-8 lead byte announcing `n` continuations. -/
def utf8Lead (b : Nat) (n : Nat) : Nat :=
  match n with
  | 0 => b
  | 1 => b - 0xc0
  | 2 => b - 0xe0
  | _ => b - 0xf0

/-- Fold the continuation bytes onto the lead payload, six bits each. -/
def utf8Accum (hi : Nat) (cs : List Nat) : Nat :=
  cs.foldl (fun acc b => acc * 64 + (b - 0x80)) hi

/-- The strict range check of a decoded scalar against its sequence length:
no overlong form, no surrogate, not beyond the last code point. -/
def utf8InRange (n v : Nat) : Bool :=
  match n with
  | 0 => true
  | 1 => 0x80 ≤ v
  | 2 => 0x800 ≤ v && !(0xd800 ≤ v && v < 0xe000)
  | _ => 0x10000 ≤ v && v < 0x110000

/-- Pull `n` continuation bytes off the token stream. -/
def takeConts : Nat → List UriToken → Option (List Nat × List UriToken)
  | 0, toks => some ([], toks)
  | n + 1, .byte b :: toks =>
    if isCont b then (takeConts n toks).map (fun p => (b :: p.1, p.2))
    else none
  | _ + 1, _ => none

theorem takeConts_length (n : Nat) (toks : List UriToken) (cs : List Nat)
    (rest2 : List UriToken) (h : takeConts n toks = some (cs, rest2)) :
    rest2.length ≤ toks.length := by
  induction n generalizing toks cs rest2 with
  | zero =>
    rw [show takeConts 0 toks = some ([], toks) from rfl] at h
    injection h with h'
    injection h' with e1 e2
    subst e2
    exact Nat.le_refl _
  | succ n ih =>
    cases toks with
    | nil =>
      rw [show takeConts (n + 1) ([] : List UriToken) = none from rfl] at h
      exact Option.noConfusion h
    | cons t rest =>
      cases t with
      | lit c =>
        rw [show takeConts (n + 1) (UriToken.lit c :: rest) = none from rfl] at h
        exact Option.noConfusion h
      | byte b =>
        rw [show takeConts (n + 1) (UriToken.byte b :: rest)
            = if isCont b then
                (takeConts n rest).map (fun p => (b :: p.1, p.2))
              else none from rfl] at h
        split at h
        · cases hrec : takeConts n rest with
          | none => rw [hrec] at h; exact Option.noConfusion h
          | some p =>
            rw [hrec] at h
            injection h with h'
            injection h' with e1 e2
            subst e2
            have := ih rest p.1 p.2 (by rw [hrec])
            simp only [List.length_cons]
            omega
        · exact Option.noConfusion h

/-- Second phase of `decodeURIComponent`: strict UTF-8 decoding of escape
runs, with literal characters passing through; overlong encodings,
surrogate code points, out-of-range values and stray or missing
continuation bytes are a `URIError` (`none`). -/
def uriDecodeTokens : List UriToken → Option Str
  | [] => some []
  | .lit c :: rest => (uriDecodeTokens rest).map (c :: ·)
  | .byte b :: rest =>
    match utf8Need b with
    | none => none
    | some n =>
      match h : takeConts n rest with
      | none => none
      | some (cs, rest2) =>
        let v := utf8Accum (utf8Lead b n) cs
        if utf8InRange n v then (uriDecodeTokens rest2).map (Char.ofNat v :: ·)
        else none
termination_by toks => toks.length
decreasing_by
  · simp only [List.length_cons]
    omega
  · have := takeConts_length n rest cs rest2 h
    simp only [List.length_cons]
    omega

/-- `decodeURIComponent`: scan, then decode. -/
def decodeURIComponent (s : Str) : Option Str :=
  (uriScan s).bind uriDecodeTokens

/-- The scan tokens of one encoded character. -/
def encTokens (c : Char) : List UriToken :=
  if isUriUnescaped c then [.lit c] else (utf8Bytes c).map UriToken.byte

/-! ### Theorems -/

/-- `jsSplit` never returns the empty list of segments. -/
theorem jsSplit_ne_nil (sep : Char) (s : Str) : jsSplit sep s ≠ [] := by
  cases s with
  | nil => simp [jsSplit]
  | cons c rest =>
    simp only [jsSplit]
    cases jsSplit sep rest with
    | nil => simp
    | cons h t => dsimp only; split <;> simp

theorem containsSubstr_iff (needle hay : Str) :
    containsSubstr needle hay = true ↔ needle <:+: hay := by
  induction hay with
  | nil => cases needle <;> simp [containsSubstr, List.infix_nil]
  | cons c rest ih =>
    simp only [containsSubstr, Bool.or_eq_true, List.isPrefixOf_iff_prefix, ih]
    constructor
    · rintro (h | h)
      · exact h.isInfix
      · exact h.trans ⟨[c], [], by simp⟩
    · rintro ⟨s, t, hst⟩
      cases s with
      | nil => exact Or.inl ⟨t, by simpa using hst⟩
      | cons x s' =>
        right
        refine ⟨s', t, ?_⟩
        simpa using congrArg (List.drop 1) hst

theorem filter_not_dropWhile {α : Type} (p : α → Bool) (l : List α) :
    (l.dropWhile p).filter (fun c => !p c) = l.filter (fun c => !p c) := by
  induction l with
  | nil => rfl
  | cons c rest ih =>
    by_cases h : p c = true <;>
      simp [List.dropWhile_cons, List.filter_cons, h, ih]

theorem stripBearer_no_ws (t : Str) (h : ∀ c ∈ t, jsWhitespace c = false) :
    stripBearer t = t := by
  unfold stripBearer
  split
  · rename_i b rest
    rw [if_neg]
    intro hcond
    rw [Bool.and_eq_true] at hcond
    have h2 := hcond.2
    cases rest with
    | nil => simp at h2
    | cons c rs =>
      have hcw : jsWhitespace c = false := h c (by simp)
      have h2' : jsWhitespace c = true := h2
      rw [hcw] at h2'
      exact Bool.false_ne_true h2'
  · rfl

theorem sanitizeToken_no_ws (t : Option Str) :
    ∀ c ∈ sanitizeToken t, jsWhitespace c = false := by
  intro c hc
  cases t with
  | none => simp [sanitizeToken] at hc
  | some s =>
    simp only [sanitizeToken] at hc
    split at hc
    · simp at hc
    · have := (List.mem_filter.mp hc).2
      simpa using this

theorem sanitizeToken_idem (t : Str) :
    sanitizeToken (some (sanitizeToken (some t))) = sanitizeToken (some t) := by
  have hnws := sanitizeToken_no_ws (some t)
  generalize hr : sanitizeToken (some t) = r
  rw [hr] at hnws
  by_cases h0 : r = []
  · rw [h0]; rfl
  · simp only [sanitizeToken, if_neg h0]
    rw [stripBearer_no_ws _ hnws]
    exact List.filter_eq_self.mpr (fun c hc => by simp [hnws c hc])

theorem sanitizeToken_bearer (b w : Char) (rest : Str)
    (hb : b = 'B' ∨ b = 'b') (hw : jsWhitespace w = true) :
    sanitizeToken (some (b :: 'e' :: 'a' :: 'r' :: 'e' :: 'r' :: w :: rest))
      = rest.filter (fun c => !jsWhitespace c) := by
  have hcons : (b :: 'e' :: 'a' :: 'r' :: 'e' :: 'r' :: w :: rest : Str) ≠ [] := by
    simp
  simp only [sanitizeToken, if_neg hcons]
  have hstrip : stripBearer (b :: 'e' :: 'a' :: 'r' :: 'e' :: 'r' :: w :: rest)
      = (w :: rest).dropWhile jsWhitespace := by
    unfold stripBearer
    rcases hb with rfl | rfl <;> simp [hw]
  rw [hstrip, filter_not_dropWhile]
  simp [List.filter_cons, hw]

/-- Claim C4, counterexample: the prefix regular expression `^[Bb]earer\s+`
is case-insensitive only in its first letter, so a token written with the
prefix `BEARER ` keeps that prefix (only the space is removed), contradicting
the claim that a `Bearer ` prefix "in any letter case" is stripped. -/
theorem sanitizeToken_c4_counterexample :
    sanitizeToken (some ("BEARER abc".toList)) = "BEARERabc".toList ∧
    sanitizeToken (some ("BEARER abc".toList)) ≠ "abc".toList := by
  constructor
  · rfl
  · decide

/-- Claim C4 (amended): for every token beginning with `B` or `b` followed by
the literal `earer` and at least one whitespace character, sanitization
removes that prefix and every whitespace character of the remainder; absent
input yields the empty string; and sanitization is idempotent. -/
theorem sanitizeToken_c4 (b w : Char) (rest t : Str)
    (hb : b = 'B' ∨ b = 'b') (hw : jsWhitespace w = true) :
    sanitizeToken (some (b :: 'e' :: 'a' :: 'r' :: 'e' :: 'r' :: w :: rest))
      = rest.filter (fun c => !jsWhitespace c) ∧
    sanitizeToken none = [] ∧
    sanitizeToken (some (sanitizeToken (some t))) = sanitizeToken (some t) :=
  ⟨sanitizeToken_bearer b w rest hb hw, rfl, sanitizeToken_idem t⟩

/-- Claim C4 witness: the amended theorem applied to the concrete token
`"Bearer  ab c\n"`. -/
theorem sanitizeToken_c4_witness :
    sanitizeToken (some ("Bearer  ab c\n".toList)) = "abc".toList := by
  have h := sanitizeToken_c4 'B' ' ' (" ab c\n".toList) "x".toList
    (Or.inl rfl) (by decide)
  calc sanitizeToken (some ("Bearer  ab c\n".toList))
      = (" ab c\n".toList).filter (fun c => !jsWhitespace c) := h.1
    _ = "abc".toList := by decide

theorem jsSplit_length_ge_two (sep : Char) (s : Str) (h : sep ∈ s) :
    2 ≤ (jsSplit sep s).length := by
  induction s with
  | nil => simp at h
  | cons c rest ih =>
    simp only [jsSplit]
    cases hsp : jsSplit sep rest with
    | nil => exact absurd hsp (jsSplit_ne_nil sep rest)
    | cons h0 t =>
      by_cases hc : c = sep
      · simp [hc]
      · have hmem : sep ∈ rest := by
          rcases List.mem_cons.mp h with h1 | h1
          · exact absurd h1.symm hc
          · exact h1
        have h2 := ih hmem
        rw [hsp] at h2
        simp only [if_neg hc]
        simp only [List.length_cons] at h2 ⊢
        omega

theorem foldl_guarded_jsSetAdd (P : Str → Bool) (g : Str → Str) (xs : List Str)
    (init : List Str) :
    xs.foldl (fun acc file => if P file then jsSetAdd acc (g file) else acc) init
      = (xs.filterMap (fun p => if P p then some (g p) else none)).foldl jsSetAdd init := by
  induction xs generalizing init with
  | nil => rfl
  | cons x rest ih =>
    by_cases h : P x = true <;> simp [List.filterMap_cons, h, ih]

theorem foldl_jsSetAdd_eq (xs : List Str) (acc : List Str) :
    xs.foldl jsSetAdd acc
      = acc ++ (dedupFirst xs).filter (fun y => decide (y ∉ acc)) := by
  induction xs generalizing acc with
  | nil => simp [dedupFirst]
  | cons x rest ih =>
    simp only [List.foldl_cons, dedupFirst]
    rw [ih]
    by_cases hx : x ∈ acc
    · have hadd : jsSetAdd acc x = acc := by simp [jsSetAdd, hx]
      rw [hadd]
      simp only [List.filter_cons, decide_eq_true_eq]
      rw [if_neg (by simp [hx])]
      congr 1
      rw [List.filter_filter]
      apply List.filter_congr
      intro y _
      by_cases hy : y ∈ acc
      · simp [hy]
      · have : y ≠ x := fun hyx => hy (hyx ▸ hx)
        simp [hy, this]
    · have hadd : jsSetAdd acc x = acc ++ [x] := by simp [jsSetAdd, hx]
      rw [hadd]
      simp only [List.filter_cons, decide_eq_true_eq]
      rw [if_pos (by simp [hx])]
      rw [List.append_assoc, List.singleton_append]
      congr 2
      rw [List.filter_filter]
      apply List.filter_congr
      intro y _
      by_cases hyx : y = x
      · simp [hyx]
      · by_cases hy : y ∈ acc <;> simp [hy, hyx]

/-- Claim C5: folder detection returns exactly the distinct `actions/child`
paths, child being the second path segment of each changed path rooted under
`actions/`, in order of first appearance; on the sample commit touching
`actions/a/config.yaml`, `actions/b/main.py` and `other/file.txt` it returns
exactly `[actions/a, actions/b]`. -/
theorem getChangedFolders_c5 :
    (∀ raw : Str, getChangedFolders (.ok raw)
        = spec_changedActionFolders (jsSplit '\n' raw)) ∧
    getChangedFolders
        (.ok ("actions/a/config.yaml\nactions/b/main.py\nother/file.txt".toList))
      = ["actions/a".toList, "actions/b".toList] := by
  constructor
  · intro raw
    simp only [getChangedFolders, spec_changedActionFolders]
    rw [List.foldl_ext (g := fun folders file =>
      if "actions/".toList.isPrefixOf file then
        jsSetAdd folders ("actions/".toList ++ ((jsSplit '/' file)[1]?.getD []))
      else folders)]
    · rw [foldl_guarded_jsSetAdd, foldl_jsSetAdd_eq]
      simp
    · intro acc file _
      by_cases hp : "actions/".toList.isPrefixOf file = true
      · have hmem : '/' ∈ file := by
          rcases List.isPrefixOf_iff_prefix.mp hp with ⟨t, ht⟩
          rw [← ht]
          simp
        have := jsSplit_length_ge_two '/' file hmem
        simp [hp, this]
      · have hp' : ¬((['a', 'c', 't', 'i', 'o', 'n', 's', '/'] : Str) <+: file) := by
          simpa [List.isPrefixOf_iff_prefix] using hp
        simp [hp']
  · decide

theorem generatePayload_eq_ok (folder : Str) (config : ActionConfig) (content : Str)
    (hval : validateConfig config folder = none) :
    generatePayload folder ⟨true, .ok config, true, .ok content⟩
      = .ok (builtPayload folder config content) := by
  simp [generatePayload, hval, builtPayload]

/-- Unfolding of `syncTask` on a folder whose payload builds and whose
remote task exists. -/
theorem syncTask_exists_branch (folder : Str) (config : ActionConfig)
    (content : Str) (lookup : Except Str HttpResp) (git : Except Unit Str)
    (patchFs : FileFs) (v : JVal)
    (hval : validateConfig config (removeTrailingSlash folder) = none)
    (hlook : checkTaskExists lookup = some v) :
    syncTask folder ⟨true, .ok config, true, .ok content⟩ lookup git patchFs
      = if onlyPyFilesChanged
            (getChangedFilesInFolder (removeTrailingSlash folder) git) then
          (match generateFileOnlyPayload patchFs with
           | .error _ =>
               .updated (.full (builtPayload (removeTrailingSlash folder) config content)) true
           | .ok b => .updated (.fileOnly b) false)
        else
          .updated (.full (builtPayload (removeTrailingSlash folder) config content)) false := by
  simp only [syncTask, Bool.not_true, Bool.false_eq_true, if_false,
    generatePayload_eq_ok _ _ _ hval, hlook]

/-- Unfolding of `syncTask` on a folder whose payload builds and whose
remote task is not found. -/
theorem syncTask_creates_of_lookup_none (folder : Str) (config : ActionConfig)
    (content : Str) (lookup : Except Str HttpResp) (git : Except Unit Str)
    (patchFs : FileFs)
    (hval : validateConfig config (removeTrailingSlash folder) = none)
    (hnone : checkTaskExists lookup = none) :
    syncTask folder ⟨true, .ok config, true, .ok content⟩ lookup git patchFs
      = .created (builtPayload (removeTrailingSlash folder) config content) := by
  simp only [syncTask, Bool.not_true, Bool.false_eq_true, if_false,
    generatePayload_eq_ok _ _ _ hval, hnone]

/-- The update decision as a proposition. -/
theorem onlyPyFilesChanged_iff (files : List Str) :
    onlyPyFilesChanged files = true ↔
      (files ≠ [] ∧ (∀ f ∈ files, f = "main.py".toList) ∧
        "config.yaml".toList ∉ files) := by
  simp only [onlyPyFilesChanged, Bool.and_eq_true, Bool.not_eq_true',
    decide_eq_true_eq, List.all_eq_true, beq_iff_eq, List.any_eq_false,
    List.length_pos]
  constructor
  · rintro ⟨⟨h1, h2⟩, h3⟩
    exact ⟨h1, h2, fun hmem => h3 _ hmem rfl⟩
  · rintro ⟨h1, h2, h3⟩
    exact ⟨⟨h1, h2⟩, fun f hf hfe => h3 (hfe ▸ hf)⟩

/-- Claim C1, counterexample: on an empty change list (here the commit
touched no file under the folder) the stated condition "every changed file
is main.py and config.yaml is not among the changed files" holds vacuously,
yet the PATCH carries the full payload, not the file-only payload. -/
theorem syncTask_c1_counterexample :
    (let changed := getChangedFilesInFolder "actions/t1".toList
        (.ok "other/file.txt".toList)
     (changed.all (fun f => f == "main.py".toList)
        && !(changed.any (fun f => f == "config.yaml".toList))) = true) ∧
    syncTask "actions/t1".toList ⟨true, .ok sampleConfig, true, .ok "x".toList⟩
        (.ok ⟨200, .obj [("id".toList, .num 7)]⟩) (.ok "other/file.txt".toList)
        ⟨true, .ok "x".toList⟩
      = .updated (.full (builtPayload "actions/t1".toList sampleConfig "x".toList))
          false :=
  ⟨rfl, rfl⟩

/-- Claim C1 (amended): for a folder whose remote resource exists, the PATCH
carries the partial (file-only) payload exactly when the changed-file list
is non-empty, every changed file is `main.py`, and `config.yaml` is not
among the changed files; otherwise it carries the full payload.  (The
amendment adds the non-emptiness requirement: on an empty change list the
code sends the full payload even though the claim's universal condition
holds vacuously.) -/
theorem syncTask_c1 (folder : Str) (config : ActionConfig) (content : Str)
    (lookup : Except Str HttpResp) (git : Except Unit Str)
    (patchContent : Str) (v : JVal)
    (hval : validateConfig config (removeTrailingSlash folder) = none)
    (hlook : checkTaskExists lookup = some v) :
    syncTask folder ⟨true, .ok config, true, .ok content⟩ lookup git
        ⟨true, .ok patchContent⟩
      = .updated
          (if (getChangedFilesInFolder (removeTrailingSlash folder) git ≠ [] ∧
              (∀ f ∈ getChangedFilesInFolder (removeTrailingSlash folder) git,
                 f = "main.py".toList) ∧
              "config.yaml".toList ∉
                getChangedFilesInFolder (removeTrailingSlash folder) git) then
            .fileOnly (encodeURIComponent patchContent)
          else .full (builtPayload (removeTrailingSlash folder) config content))
          false := by
  rw [syncTask_exists_branch folder config content lookup git _ v hval hlook]
  by_cases hP : (getChangedFilesInFolder (removeTrailingSlash folder) git ≠ [] ∧
      (∀ f ∈ getChangedFilesInFolder (removeTrailingSlash folder) git,
         f = "main.py".toList) ∧
      "config.yaml".toList ∉ getChangedFilesInFolder (removeTrailingSlash folder) git)
  · rw [if_pos ((onlyPyFilesChanged_iff _).mpr hP), if_pos hP]
    rfl
  · rw [if_neg (fun hb => hP ((onlyPyFilesChanged_iff _).mp hb)), if_neg hP]

/-- Claim C1 witness: a commit touching only `actions/t1/main.py` leads to a
PATCH with the file-only payload. -/
theorem syncTask_c1_witness :
    syncTask "actions/t1".toList ⟨true, .ok sampleConfig, true, .ok "x".toList⟩
        (.ok ⟨200, .obj [("id".toList, .num 7)]⟩)
        (.ok "actions/t1/main.py".toList) ⟨true, .ok "y".toList⟩
      = .updated (.fileOnly (encodeURIComponent "y".toList)) false := by
  rw [syncTask_c1 "actions/t1".toList sampleConfig "x".toList
      (.ok ⟨200, .obj [("id".toList, .num 7)]⟩) (.ok "actions/t1/main.py".toList)
      "y".toList (.num 7) rfl rfl]
  rw [if_pos (by decide)]

/-- Claim C10: with an existing remote resource, an empty changed-file list
(as produced, for example, when the history query fails) yields a PATCH with
the full payload; the partial payload is chosen only when at least one
changed file exists. -/
theorem syncTask_c10 (folder : Str) (config : ActionConfig) (content : Str)
    (lookup : Except Str HttpResp) (git : Except Unit Str) (patchFs : FileFs)
    (v : JVal)
    (hval : validateConfig config (removeTrailingSlash folder) = none)
    (hlook : checkTaskExists lookup = some v) :
    (getChangedFilesInFolder (removeTrailingSlash folder) git = [] →
      syncTask folder ⟨true, .ok config, true, .ok content⟩ lookup git patchFs
        = .updated (.full (builtPayload (removeTrailingSlash folder) config content))
            false) ∧
    (∀ b fb, syncTask folder ⟨true, .ok config, true, .ok content⟩ lookup git patchFs
        = .updated (.fileOnly b) fb →
      getChangedFilesInFolder (removeTrailingSlash folder) git ≠ []) := by
  rw [syncTask_exists_branch folder config content lookup git patchFs v hval hlook]
  constructor
  · intro hempty
    rw [hempty]
    rw [if_neg (by simp [onlyPyFilesChanged])]
  · intro b fb h hempty
    rw [hempty] at h
    rw [if_neg (by simp [onlyPyFilesChanged])] at h
    exact PatchBody.noConfusion (SyncOutcome.updated.inj h).1

/-- Claim C10 witness: a failing history query degrades to an empty change
list and the PATCH carries the full payload. -/
theorem syncTask_c10_witness :
    getChangedFilesInFolder "actions/t1".toList (.error ()) = [] ∧
    syncTask "actions/t1".toList ⟨true, .ok sampleConfig, true, .ok "x".toList⟩
        (.ok ⟨200, .obj [("id".toList, .num 7)]⟩) (.error ()) ⟨true, .ok "y".toList⟩
      = .updated (.full (builtPayload "actions/t1".toList sampleConfig "x".toList))
          false := by
  refine ⟨rfl, ?_⟩
  exact (syncTask_c10 "actions/t1".toList sampleConfig "x".toList
    (.ok ⟨200, .obj [("id".toList, .num 7)]⟩) (.error ()) ⟨true, .ok "y".toList⟩
    (.num 7) rfl rfl).1 rfl

theorem mem_joinSep_infix (sep : Str) (xs : List Str) (x : Str) (hx : x ∈ xs) :
    x <:+: joinSep sep xs := by
  induction xs with
  | nil => simp at hx
  | cons y rest ih =>
    cases rest with
    | nil =>
      simp only [List.mem_singleton] at hx
      subst hx
      exact List.infix_refl x
    | cons z rs =>
      rcases List.mem_cons.mp hx with rfl | hmem
      · exact ⟨[], sep ++ joinSep sep (z :: rs), by simp [joinSep]⟩
      · exact (ih hmem).trans ⟨y ++ sep, [], by simp [joinSep]⟩

theorem validateConfig_missing (config : ActionConfig) (folder : Str) (k : Str)
    (hk : k ∈ requiredKeys) (hmiss : hasKey config k = false) :
    ∃ e, validateConfig config folder = some e ∧
      invalidConfigMarker <+: e ∧
      (∀ k2 ∈ requiredKeys, hasKey config k2 = false → missingKeyMsg k2 <:+: e) := by
  have hkf : k ∈ requiredKeys.filter (fun k2 => !hasKey config k2) := by
    rw [List.mem_filter]
    exact ⟨hk, by simp [hmiss]⟩
  have hne : ((requiredKeys.filter (fun k2 => !hasKey config k2)).map
      (fun k2 => quoteChar :: (k2 ++ (quoteChar :: " is required".toList)))).isEmpty
        = false := by
    cases hflt : requiredKeys.filter (fun k2 => !hasKey config k2) with
    | nil => rw [hflt] at hkf; simp at hkf
    | cons a l => simp [hflt]
  refine ⟨"Invalid config.yaml in ".toList ++ folder ++ ":\n  - ".toList
      ++ joinSep "\n  - ".toList
        ((requiredKeys.filter (fun k2 => !hasKey config k2)).map
          (fun k2 => quoteChar :: (k2 ++ (quoteChar :: " is required".toList)))),
    ?_, ?_, ?_⟩
  · simp only [validateConfig, hne, Bool.false_eq_true, if_false]
  · have hdec : ("Invalid config.yaml in ".toList : Str)
        = invalidConfigMarker ++ " in ".toList := by decide
    rw [hdec]
    simp only [List.append_assoc]
    exact List.prefix_append _ _
  · intro k2 hk2 hmiss2
    have hk2f : k2 ∈ requiredKeys.filter (fun k3 => !hasKey config k3) := by
      rw [List.mem_filter]
      exact ⟨hk2, by simp [hmiss2]⟩
    have hmem : missingKeyMsg k2
        ∈ (requiredKeys.filter (fun k3 => !hasKey config k3)).map
            (fun k3 => quoteChar :: (k3 ++ (quoteChar :: " is required".toList))) :=
      List.mem_map_of_mem _ hk2f
    have hinf := mem_joinSep_infix "\n  - ".toList _ _ hmem
    exact hinf.trans ⟨"Invalid config.yaml in ".toList ++ folder ++ ":\n  - ".toList,
      [], by simp⟩

/-- Claim C2: a parsed config missing one or more required keys makes
payload building fail with a single error whose text contains one bullet for
every missing key (not just the first), and `syncTask` terminates the run by
exiting with code 1. -/
theorem syncTask_c2 (folder : Str) (config : ActionConfig)
    (rmain : Except Str Str) (lookup : Except Str HttpResp)
    (git : Except Unit Str) (patchFs : FileFs) (k : Str)
    (hk : k ∈ requiredKeys) (hmiss : hasKey config k = false) :
    ∃ e, generatePayload (removeTrailingSlash folder)
          ⟨true, .ok config, true, rmain⟩ = .error e ∧
      (∀ k2 ∈ requiredKeys, hasKey config k2 = false → missingKeyMsg k2 <:+: e) ∧
      syncTask folder ⟨true, .ok config, true, rmain⟩ lookup git patchFs
        = .exitRun 1 := by
  obtain ⟨e, hval, hpre, hbul⟩ :=
    validateConfig_missing config (removeTrailingSlash folder) k hk hmiss
  have hgen : generatePayload (removeTrailingSlash folder)
      ⟨true, .ok config, true, rmain⟩ = .error e := by
    simp [generatePayload, hval]
  refine ⟨e, hgen, hbul, ?_⟩
  have hmark : containsSubstr invalidConfigMarker e = true :=
    (containsSubstr_iff _ _).mpr hpre.isInfix
  simp only [syncTask, Bool.not_true, Bool.false_eq_true, if_false, hgen, hmark,
    if_true]

/-- Claim C2 witness: a config with only `description` misses four keys; the
error carries a bullet for both `memory` and `concurrency`, and the run
exits with code 1. -/
theorem syncTask_c2_witness :
    ∃ e, generatePayload "actions/t1".toList
          ⟨true, .ok [("description".toList, JVal.str [])], true, .ok []⟩
        = .error e ∧
      missingKeyMsg "memory".toList <:+: e ∧
      missingKeyMsg "concurrency".toList <:+: e ∧
      syncTask "actions/t1".toList
          ⟨true, .ok [("description".toList, JVal.str [])], true, .ok []⟩
          (.error []) (.error ()) ⟨true, .ok []⟩
        = .exitRun 1 := by
  obtain ⟨e, h1, h2, h3⟩ := syncTask_c2 "actions/t1".toList
    [("description".toList, JVal.str [])] (.ok []) (.error []) (.error ())
    ⟨true, .ok []⟩ "memory".toList (by decide) (by decide)
  exact ⟨e, h1, h2 _ (by decide) (by decide), h2 _ (by decide) (by decide), h3⟩

/-- Claim C3, counterexample: a folder whose `config.yaml` fails to parse is
classified `Invalid YAML:` and merely logged — `syncTask` returns and the
loop continues to the next folder; the run is not aborted, contradicting the
claim that `InvalidYaml` is fatal like `InvalidConfig`. -/
theorem syncTask_c3_counterexample :
    syncTask "actions/t1".toList
        ⟨true, .error "bad indentation of a mapping entry".toList, true, .ok []⟩
        (.error []) (.error ()) ⟨true, .ok []⟩
      = .errorContinue ("Invalid YAML: bad indentation of a mapping entry".toList) ∧
    syncTask "actions/t1".toList
        ⟨true, .error "bad indentation of a mapping entry".toList, true, .ok []⟩
        (.error []) (.error ()) ⟨true, .ok []⟩
      ≠ .exitRun 1 := by
  refine ⟨rfl, fun h => ?_⟩
  have h2 : SyncOutcome.errorContinue
        ("Invalid YAML: bad indentation of a mapping entry".toList)
      = SyncOutcome.exitRun 1 := Eq.trans (by rfl) h
  exact SyncOutcome.noConfusion h2

/-- Claim C3 (amended): a YAML parse failure is reported as `Invalid YAML:`
followed by the parser's message and, unless that message itself happens to
contain the substring `Invalid config.yaml`, the folder is logged and
skipped while the run continues — the failure is not fatal (only the
`InvalidConfig` classification aborts the run). -/
theorem syncTask_c3 (folder : Str) (m : Str) (rmain : Except Str Str)
    (lookup : Except Str HttpResp) (git : Except Unit Str) (patchFs : FileFs)
    (hm : containsSubstr invalidConfigMarker ("Invalid YAML: ".toList ++ m)
        = false) :
    syncTask folder ⟨true, .error m, true, rmain⟩ lookup git patchFs
      = .errorContinue ("Invalid YAML: ".toList ++ m) := by
  simp only [syncTask, generatePayload, Bool.not_true, Bool.false_eq_true,
    if_false, hm]

/-- Claim C3 witness: the amended theorem at the concrete parser message. -/
theorem syncTask_c3_witness :
    syncTask "actions/t1".toList
        ⟨true, .error "end of the stream".toList, true, .ok []⟩
        (.error []) (.error ()) ⟨true, .ok []⟩
      = .errorContinue ("Invalid YAML: end of the stream".toList) := by
  have h := syncTask_c3 "actions/t1".toList "end of the stream".toList (.ok [])
    (.error []) (.error ()) ⟨true, .ok []⟩ rfl
  exact Eq.trans h (by rfl)

theorem checkTaskExists_ok_eq (st : Int) (d : JVal) :
    checkTaskExists (.ok ⟨st, d⟩)
      = jsOrNull
          (((d.getField "results".toList).bind (fun w => w.getIndex 0)).bind
            (fun w => w.getField "id".toList))
          (d.getField "id".toList) := rfl

theorem jsOrNull_truthy (a b : Option JVal) (v : JVal)
    (h : jsOrNull a b = some v) : v.truthy = true := by
  unfold jsOrNull at h
  rcases a with _ | u <;> rcases b with _ | w <;> dsimp only at h
  · exact Option.noConfusion h
  · split at h
    · cases h; assumption
    · exact Option.noConfusion h
  · split at h
    · cases h; assumption
    · exact Option.noConfusion h
  · split at h
    · cases h; assumption
    · split at h
      · cases h; assumption
      · exact Option.noConfusion h

/-- Claim C6: the existence lookup yields the id at `results[0].id` when
that optional chain produces a (truthy) value, else the top-level `id`
field's value, else not-found; and every rejected exchange is logged and
mapped to not-found, so a failed lookup routes the folder to a create
attempt instead of aborting it. -/
theorem checkTaskExists_c6 (msg : Str) (st : Int) (d : JVal) (v : JVal)
    (folder : Str) (config : ActionConfig) (content : Str)
    (git : Except Unit Str) (patchFs : FileFs)
    (hval : validateConfig config (removeTrailingSlash folder) = none) :
    (checkTaskExists (.error msg) = none ∧
      syncTask folder ⟨true, .ok config, true, .ok content⟩ (.error msg) git patchFs
        = .created (builtPayload (removeTrailingSlash folder) config content)) ∧
    ((((d.getField "results".toList).bind (fun w => w.getIndex 0)).bind
        (fun w => w.getField "id".toList) = some v) → v.truthy = true →
      checkTaskExists (.ok ⟨st, d⟩) = some v) ∧
    ((((d.getField "results".toList).bind (fun w => w.getIndex 0)).bind
        (fun w => w.getField "id".toList) = none) →
      d.getField "id".toList = some v → v.truthy = true →
      checkTaskExists (.ok ⟨st, d⟩) = some v) ∧
    ((((d.getField "results".toList).bind (fun w => w.getIndex 0)).bind
        (fun w => w.getField "id".toList) = none) →
      d.getField "id".toList = none →
      checkTaskExists (.ok ⟨st, d⟩) = none) := by
  refine ⟨⟨rfl, syncTask_creates_of_lookup_none _ _ _ _ _ _ hval rfl⟩, ?_, ?_, ?_⟩
  · intro hA hv
    rw [checkTaskExists_ok_eq, hA]
    unfold jsOrNull
    dsimp only
    rw [if_pos hv]
  · intro hA hB hv
    rw [checkTaskExists_ok_eq, hA, hB]
    unfold jsOrNull
    dsimp only
    rw [if_pos hv]
  · intro hA hB
    rw [checkTaskExists_ok_eq, hA, hB]
    rfl

/-- Claim C6 witness: a rejected GET routes the folder to a create attempt,
and an id in `results[0].id` is extracted whatever the status code. -/
theorem checkTaskExists_c6_witness :
    checkTaskExists (.error "connect ECONNREFUSED".toList) = none ∧
    syncTask "actions/t1".toList ⟨true, .ok sampleConfig, true, .ok "x".toList⟩
        (.error "connect ECONNREFUSED".toList) (.error ()) ⟨true, .ok []⟩
      = .created (builtPayload "actions/t1".toList sampleConfig "x".toList) ∧
    checkTaskExists (.ok ⟨404, .obj [("results".toList,
        .arr [.obj [("id".toList, .num 5)]])]⟩) = some (.num 5) := by
  have h := checkTaskExists_c6 "connect ECONNREFUSED".toList 404
    (.obj [("results".toList, .arr [.obj [("id".toList, .num 5)]])]) (.num 5)
    "actions/t1".toList sampleConfig "x".toList (.error ()) ⟨true, .ok []⟩ rfl
  exact ⟨h.1.1, h.1.2, h.2.1 rfl rfl⟩

/-- Claim C9: the lookup result never depends on the HTTP status code; a
lookup can only ever return a truthy id, so any falsy id value (0, empty
string, null) degrades to not-found — concretely a falsy `results[0].id`
with no top-level id yields not-found — and a not-found lookup routes the
folder to a create attempt. -/
theorem checkTaskExists_c9 (s1 s2 : Int) (d : JVal)
    (resp : Except Str HttpResp) (w : JVal) (es : List JVal)
    (folder : Str) (config : ActionConfig) (content : Str)
    (git : Except Unit Str) (patchFs : FileFs) (lookup : Except Str HttpResp)
    (hval : validateConfig config (removeTrailingSlash folder) = none)
    (hw : w.truthy = false)
    (hnone : checkTaskExists lookup = none) :
    checkTaskExists (.ok ⟨s1, d⟩) = checkTaskExists (.ok ⟨s2, d⟩) ∧
    (∀ v, checkTaskExists resp = some v → v.truthy = true) ∧
    checkTaskExists (.ok ⟨s1, .obj [("results".toList,
        .arr (.obj [("id".toList, w)] :: es))]⟩) = none ∧
    syncTask folder ⟨true, .ok config, true, .ok content⟩ lookup git patchFs
      = .created (builtPayload (removeTrailingSlash folder) config content) := by
  refine ⟨rfl, ?_, ?_, syncTask_creates_of_lookup_none _ _ _ _ _ _ hval hnone⟩
  · intro v hv
    cases resp with
    | error m => exact absurd hv (by simp [checkTaskExists])
    | ok r =>
      apply jsOrNull_truthy _ _ v
      exact hv
  · rw [checkTaskExists_ok_eq]
    have hA : (((JVal.obj [("results".toList,
          .arr (.obj [("id".toList, w)] :: es))]).getField
            "results".toList).bind (fun x => x.getIndex 0)).bind
          (fun x => x.getField "id".toList) = some w := by
      rw [show (JVal.obj [("results".toList,
            .arr (.obj [("id".toList, w)] :: es))]).getField "results".toList
          = some (.arr (.obj [("id".toList, w)] :: es)) from rfl]
      rw [Option.some_bind]
      simp only [JVal.getIndex, List.getElem?_cons_zero, Option.some_bind]
      rfl
    have hB : (JVal.obj [("results".toList,
        .arr (.obj [("id".toList, w)] :: es))]).getField "id".toList = none := by rfl
    rw [hA, hB]
    unfold jsOrNull
    dsimp only
    rw [if_neg (by simp [hw])]

/-- Claim C9 witness: the same body gives the same id under status 200 and
status 500; a zero id in `results[0]` is treated as not-found; and an empty
response object routes the folder to a create attempt. -/
theorem checkTaskExists_c9_witness :
    checkTaskExists (.ok ⟨200, .obj [("id".toList, .num 9)]⟩)
      = checkTaskExists (.ok ⟨500, .obj [("id".toList, .num 9)]⟩) ∧
    checkTaskExists (.ok ⟨200, .obj [("results".toList,
        .arr [.obj [("id".toList, .num 0)]])]⟩) = none ∧
    syncTask "actions/t1".toList ⟨true, .ok sampleConfig, true, .ok "x".toList⟩
        (.ok ⟨200, .obj []⟩) (.error ()) ⟨true, .ok []⟩
      = .created (builtPayload "actions/t1".toList sampleConfig "x".toList) := by
  have h := checkTaskExists_c9 200 500 (.obj [("id".toList, .num 9)])
    (.ok ⟨200, .obj []⟩) (.num 0) [] "actions/t1".toList sampleConfig
    "x".toList (.error ()) ⟨true, .ok []⟩ (.ok ⟨200, .obj []⟩) rfl rfl rfl
  exact ⟨h.1, h.2.2.1, h.2.2.2⟩

/-- Claim C7: when the decision selects the partial payload but building the
file-only payload fails, `syncTask` logs the fallback warning and PATCHes
the already-built full payload instead of marking the folder failed. -/
theorem syncTask_c7 (folder : Str) (config : ActionConfig) (content : Str)
    (lookup : Except Str HttpResp) (git : Except Unit Str) (patchFs : FileFs)
    (v : JVal) (m : Str)
    (hval : validateConfig config (removeTrailingSlash folder) = none)
    (hlook : checkTaskExists lookup = some v)
    (honly : onlyPyFilesChanged
        (getChangedFilesInFolder (removeTrailingSlash folder) git) = true)
    (hfail : generateFileOnlyPayload patchFs = .error m) :
    syncTask folder ⟨true, .ok config, true, .ok content⟩ lookup git patchFs
      = .updated (.full (builtPayload (removeTrailingSlash folder) config content))
          true := by
  rw [syncTask_exists_branch folder config content lookup git patchFs v hval hlook,
    if_pos honly, hfail]

/-- Claim C7 witness: `main.py` vanishing between the full-payload build and
the file-only build triggers the fallback to the full payload. -/
theorem syncTask_c7_witness :
    syncTask "actions/t1".toList ⟨true, .ok sampleConfig, true, .ok "x".toList⟩
        (.ok ⟨200, .obj [("id".toList, .num 7)]⟩)
        (.ok "actions/t1/main.py".toList) ⟨false, .ok []⟩
      = .updated (.full (builtPayload "actions/t1".toList sampleConfig "x".toList))
          true :=
  syncTask_c7 "actions/t1".toList sampleConfig "x".toList
    (.ok ⟨200, .obj [("id".toList, .num 7)]⟩) (.ok "actions/t1/main.py".toList)
    ⟨false, .ok []⟩ (.num 7) "No main.py file found".toList rfl rfl rfl rfl

theorem takeConts_byte (n b : Nat) (toks : List UriToken) (hb : isCont b = true) :
    takeConts (n + 1) (UriToken.byte b :: toks)
      = (takeConts n toks).map (fun p => (b :: p.1, p.2)) := by
  rw [show takeConts (n + 1) (UriToken.byte b :: toks)
      = if isCont b then (takeConts n toks).map (fun p => (b :: p.1, p.2))
        else none from rfl, if_pos hb]

theorem hexVal_hexDigitChar : ∀ n, n < 16 → hexVal (hexDigitChar n) = some n := by
  decide

theorem char_toNat_valid (c : Char) :
    c.toNat < 0xd800 ∨ (0xdfff < c.toNat ∧ c.toNat < 0x110000) := c.valid

theorem uriScan_percentByte (b : Nat) (hb : b < 256) (s : Str) :
    uriScan (percentByte b ++ s) = (uriScan s).map (UriToken.byte b :: ·) := by
  have h1 : hexVal (hexDigitChar (b / 16)) = some (b / 16) :=
    hexVal_hexDigitChar _ (by omega)
  have h2 : hexVal (hexDigitChar (b % 16)) = some (b % 16) :=
    hexVal_hexDigitChar _ (by omega)
  show uriScan ('%' :: hexDigitChar (b / 16) :: hexDigitChar (b % 16) :: s) = _
  rw [uriScan.eq_def]
  dsimp only
  rw [if_pos rfl, h1, h2]
  dsimp only
  have hdm : 16 * (b / 16) + b % 16 = b := by omega
  simp only [hdm]

theorem utf8Bytes_lt_256 (c : Char) : ∀ b ∈ utf8Bytes c, b < 256 := by
  intro b hb
  have hvalid := char_toNat_valid c
  have hlt : c.toNat < 0x110000 := by rcases hvalid with h | ⟨_, h⟩ <;> omega
  by_cases h1 : c.toNat < 0x80
  · simp [utf8Bytes, h1] at hb
    omega
  · by_cases h2 : c.toNat < 0x800
    · simp [utf8Bytes, h1, h2] at hb
      rcases hb with rfl | rfl <;> omega
    · by_cases h3 : c.toNat < 0x10000
      · simp [utf8Bytes, h1, h2, h3] at hb
        rcases hb with rfl | rfl | rfl <;> omega
      · simp [utf8Bytes, h1, h2, h3] at hb
        rcases hb with rfl | rfl | rfl | rfl <;> omega

theorem uriScan_flatMap_percentByte (bs : List Nat) (s : Str)
    (hbs : ∀ b ∈ bs, b < 256) :
    uriScan (bs.flatMap percentByte ++ s)
      = (uriScan s).map (bs.map UriToken.byte ++ ·) := by
  induction bs with
  | nil =>
    simp only [List.flatMap_nil, List.nil_append, List.map_nil]
    cases uriScan s <;> simp
  | cons b bs ih =>
    rw [List.flatMap_cons, List.append_assoc,
      uriScan_percentByte b (hbs b (by simp)) _,
      ih (fun x hx => hbs x (by simp [hx]))]
    cases uriScan s <;> simp

theorem isUriUnescaped_ne_percent (c : Char) (h : isUriUnescaped c = true) :
    ¬(c = '%') := by
  intro hc
  rw [hc] at h
  exact absurd h (by decide)

theorem uriScan_encodeChar (c : Char) (s : Str) :
    uriScan (encodeChar c ++ s) = (uriScan s).map (encTokens c ++ ·) := by
  by_cases h : isUriUnescaped c = true
  · simp only [encodeChar, encTokens, if_pos h, List.singleton_append]
    rw [uriScan.eq_def]
    dsimp only
    rw [if_neg (isUriUnescaped_ne_percent c h)]
  · simp only [encodeChar, encTokens, if_neg h]
    exact uriScan_flatMap_percentByte _ s (utf8Bytes_lt_256 c)

theorem uriScan_encode (s : Str) :
    uriScan (encodeURIComponent s) = some (s.flatMap encTokens) := by
  induction s with
  | nil => rfl
  | cons c rest ih =>
    rw [show encodeURIComponent (c :: rest)
        = encodeChar c ++ encodeURIComponent rest from List.flatMap_cons ..,
      uriScan_encodeChar, ih, List.flatMap_cons]
    rfl

theorem uriDecodeTokens_byteRun (b1 : Nat) (bs : List Nat)
    (toks : List UriToken) (c : Char) (n : Nat)
    (hneed : utf8Need b1 = some n)
    (htake : takeConts n (bs.map UriToken.byte ++ toks) = some (bs, toks))
    (hacc : utf8Accum (utf8Lead b1 n) bs = c.toNat)
    (hrange : utf8InRange n c.toNat = true) :
    uriDecodeTokens (UriToken.byte b1 :: (bs.map UriToken.byte ++ toks))
      = (uriDecodeTokens toks).map (c :: ·) := by
  rw [uriDecodeTokens.eq_def]
  dsimp only
  rw [hneed]
  dsimp only
  split
  · rename_i heq
    rw [htake] at heq
    exact Option.noConfusion heq
  · rename_i cs rest2 heq
    rw [htake] at heq
    injection heq with h'
    injection h' with e1 e2
    subst e1
    subst e2
    simp only [hacc, hrange, if_true, Char.ofNat_toNat]

theorem uriDecodeTokens_encTokens (c : Char) (toks : List UriToken) :
    uriDecodeTokens (encTokens c ++ toks)
      = (uriDecodeTokens toks).map (c :: ·) := by
  by_cases h : isUriUnescaped c = true
  · simp only [encTokens, if_pos h, List.singleton_append]
    rw [uriDecodeTokens.eq_def]
  · simp only [encTokens, if_neg h]
    have hvalid := char_toNat_valid c
    by_cases h1 : c.toNat < 0x80
    · have hbytes : utf8Bytes c = [c.toNat] := by simp [utf8Bytes, h1]
      rw [hbytes]
      simp only [List.map_cons, List.map_nil]
      exact uriDecodeTokens_byteRun c.toNat [] toks c 0
        (by simp [utf8Need, h1]) rfl rfl rfl
    · by_cases h2 : c.toNat < 0x800
      · have hbytes : utf8Bytes c
            = [0xc0 + c.toNat / 64, 0x80 + c.toNat % 64] := by
          simp [utf8Bytes, h1, h2]
        rw [hbytes]
        simp only [List.map_cons, List.map_nil]
        exact uriDecodeTokens_byteRun (0xc0 + c.toNat / 64)
          [0x80 + c.toNat % 64] toks c 1
          (by simp only [utf8Need]
              rw [if_neg (by omega), if_neg (by omega), if_pos (by omega)])
          (by rw [List.map_cons, List.map_nil, List.cons_append, List.nil_append,
                takeConts_byte 0 _ _ (show isCont (0x80 + c.toNat % 64) = true by
                  simp only [isCont, Bool.and_eq_true, decide_eq_true_eq]
                  omega)]
              rfl)
          (by show (0xc0 + c.toNat / 64 - 0xc0) * 64
                + (0x80 + c.toNat % 64 - 0x80) = c.toNat
              omega)
          (by show decide (0x80 ≤ c.toNat) = true
              simp only [decide_eq_true_eq]
              omega)
      · by_cases h3 : c.toNat < 0x10000
        · have hbytes : utf8Bytes c
              = [0xe0 + c.toNat / 4096, 0x80 + c.toNat / 64 % 64,
                 0x80 + c.toNat % 64] := by
            simp [utf8Bytes, h1, h2, h3]
          rw [hbytes]
          simp only [List.map_cons, List.map_nil]
          exact uriDecodeTokens_byteRun (0xe0 + c.toNat / 4096)
            [0x80 + c.toNat / 64 % 64, 0x80 + c.toNat % 64] toks c 2
            (by simp only [utf8Need]
                rw [if_neg (by omega), if_neg (by omega), if_neg (by omega),
                  if_pos (by omega)])
            (by rw [List.map_cons, List.map_cons, List.map_nil,
                  List.cons_append, List.cons_append, List.nil_append,
                  takeConts_byte 1 _ _ (show isCont (0x80 + c.toNat / 64 % 64) = true by
                    simp only [isCont, Bool.and_eq_true, decide_eq_true_eq]
                    omega),
                  takeConts_byte 0 _ _ (show isCont (0x80 + c.toNat % 64) = true by
                    simp only [isCont, Bool.and_eq_true, decide_eq_true_eq]
                    omega)]
                rfl)
            (by show ((0xe0 + c.toNat / 4096 - 0xe0) * 64
                  + (0x80 + c.toNat / 64 % 64 - 0x80)) * 64
                  + (0x80 + c.toNat % 64 - 0x80) = c.toNat
                omega)
            (by show (decide (0x800 ≤ c.toNat)
                  && !(decide (0xd800 ≤ c.toNat) && decide (c.toNat < 0xe000)))
                  = true
                simp only [Bool.and_eq_true, Bool.not_eq_true',
                  decide_eq_true_eq, Bool.and_eq_false_iff,
                  decide_eq_false_iff_not]
                omega)
        · have hbytes : utf8Bytes c
              = [0xf0 + c.toNat / 262144, 0x80 + c.toNat / 4096 % 64,
                 0x80 + c.toNat / 64 % 64, 0x80 + c.toNat % 64] := by
            simp [utf8Bytes, h1, h2, h3]
          have hlt : c.toNat < 0x110000 := by
            rcases hvalid with hx | ⟨_, hx⟩ <;> omega
          rw [hbytes]
          simp only [List.map_cons, List.map_nil]
          exact uriDecodeTokens_byteRun (0xf0 + c.toNat / 262144)
            [0x80 + c.toNat / 4096 % 64, 0x80 + c.toNat / 64 % 64,
             0x80 + c.toNat % 64] toks c 3
            (by simp only [utf8Need]
                rw [if_neg (by omega), if_neg (by omega), if_neg (by omega),
                  if_neg (by omega), if_pos (by omega)])
            (by rw [List.map_cons, List.map_cons, List.map_cons, List.map_nil,
                  List.cons_append, List.cons_append, List.cons_append,
                  List.nil_append,
                  takeConts_byte 2 _ _ (show isCont (0x80 + c.toNat / 4096 % 64) = true by
                    simp only [isCont, Bool.and_eq_true, decide_eq_true_eq]
                    omega),
                  takeConts_byte 1 _ _ (show isCont (0x80 + c.toNat / 64 % 64) = true by
                    simp only [isCont, Bool.and_eq_true, decide_eq_true_eq]
                    omega),
                  takeConts_byte 0 _ _ (show isCont (0x80 + c.toNat % 64) = true by
                    simp only [isCont, Bool.and_eq_true, decide_eq_true_eq]
                    omega)]
                rfl)
            (by show (((0xf0 + c.toNat / 262144 - 0xf0) * 64
                  + (0x80 + c.toNat / 4096 % 64 - 0x80)) * 64
                  + (0x80 + c.toNat / 64 % 64 - 0x80)) * 64
                  + (0x80 + c.toNat % 64 - 0x80) = c.toNat
                omega)
            (by show (decide (0x10000 ≤ c.toNat)
                  && decide (c.toNat < 0x110000)) = true
                simp only [Bool.and_eq_true, decide_eq_true_eq]
                omega)

theorem uriDecodeTokens_encode (s : Str) :
    uriDecodeTokens (s.flatMap encTokens) = some s := by
  induction s with
  | nil =>
    rw [show ([] : Str).flatMap encTokens = ([] : List UriToken) from rfl,
      uriDecodeTokens.eq_def]
  | cons c rest ih =>
    rw [List.flatMap_cons, uriDecodeTokens_encTokens, ih]
    rfl

/-- Claim C8: percent-encoding the script text exactly as the payload
builders do and then reversing the percent-encoding recovers the original
text, for every text — in particular the `file` member of any built payload
decodes back to the script it encodes, and so does a sample text mixing
non-ASCII characters, newlines and quote characters. -/
theorem decodeURIComponent_c8 (s : Str) (folder : Str) (config : ActionConfig)
    (content : Str) :
    decodeURIComponent (encodeURIComponent s) = some s ∧
    decodeURIComponent ((builtPayload folder config content).file)
      = some content ∧
    decodeURIComponent (encodeURIComponent "π = \"3.14\"\n".toList)
      = some ("π = \"3.14\"\n".toList) := by
  have hmain : ∀ t : Str, decodeURIComponent (encodeURIComponent t) = some t := by
    intro t
    unfold decodeURIComponent
    rw [uriScan_encode, Option.some_bind]
    exact uriDecodeTokens_encode t
  exact ⟨hmain s, hmain content, hmain _⟩

end Pipe

